import Mathlib

/-!
Shallow embedding of the client-driver core of the ydb-nodejs-sdk repository:
the `Session` / `SessionPool` classes of `src/driver.ts` and the
`IamAuthService` class of the credentials module.

JavaScript is single-threaded with cooperative scheduling, so stateful code is
embedded as explicit state passing: each synchronous block of the source
becomes one Lean function on a state record, and the points where the source
suspends (`await`, timers, event callbacks) become separate transitions of an
inductive step relation.  Machine integers of the source are JS numbers used
as integers; counters that the source may decrement below a prior increment
are modelled as `Int`, sizes as `Nat`.
-/

namespace YdbSdk

/-! ### Session (class `Session`, src/driver.ts)

A `Session` object carries two private mutable flags, `beingDeleted` and
`free` (initially `false` / `true`).  The two extra fields are model
bookkeeping for the pool: `deletePending` records that a `DeleteSession` RPC
started by `SessionPool.deleteSession` is still in flight (the `.then`
continuation that prunes the session has not run yet); `thenPending` records
that this session was created by the acquire path of the pool and the `.then`
continuation of that path (`newSessionsRequested--; session.acquire()`),
scheduled as a later microtask, has not run yet. -/

structure SessionState where
  beingDeleted : Bool
  free : Bool
  deletePending : Bool
  thenPending : Bool
deriving DecidableEq

/-- A freshly constructed `Session`: `beingDeleted = false`, `free = true`. -/
def newSessionState : SessionState :=
  { beingDeleted := false, free := true, deletePending := false, thenPending := false }

/-- `Session.isDeleted()`: returns the `beingDeleted` flag. -/
def SessionState.isDeleted (s : SessionState) : Bool := s.beingDeleted

/-- `Session.isFree()`: `this.free && !this.isDeleted()`. -/
def SessionState.isFree (s : SessionState) : Bool := s.free && !s.isDeleted

/-- `Session.acquire()`: sets `free = false` (and returns the session). -/
def SessionState.acquireCall (s : SessionState) : SessionState := { s with free := false }

/-- `Session.release()`: sets `free = true` (and emits `SESSION_RELEASE`). -/
def SessionState.releaseCall (s : SessionState) : SessionState := { s with free := true }

/-- `Session.delete()`: if already deleted, resolve immediately; otherwise set
`beingDeleted` and issue one `DeleteSession` RPC.  The second component is the
number of `DeleteSession` RPCs this call issues. -/
def SessionState.deleteCall (s : SessionState) : SessionState × Nat :=
  if s.isDeleted then (s, 0)
  else ({ s with beingDeleted := true }, 1)

/-- The flag-mutating session operations other than `delete`. -/
inductive SessionOp
  | acquireOp
  | releaseOp
deriving DecidableEq

def applySessionOp (s : SessionState) : SessionOp → SessionState
  | .acquireOp => s.acquireCall
  | .releaseOp => s.releaseCall

def applySessionOps (s : SessionState) (ops : List SessionOp) : SessionState :=
  ops.foldl applySessionOp s

/-! ### `executeQuery` request construction (class `Session`, src/driver.ts)

`executeQuery(query, params = {}, txControl = AUTO_TX)` builds the
`ExecuteDataQuery` request `{sessionId, txControl, parameters, query}`.  The
transaction-control argument is either an existing transaction `{txId}` or a
new one `{beginTx, commitTx}`; an omitted argument defaults to `AUTO_TX`. -/

/-- `ITransactionSettings`: the source only ever writes the
`serializableReadWrite` mode. -/
inductive TransactionSettings
  | serializableReadWrite
deriving DecidableEq

/-- `IExistingTransaction | INewTransaction`. -/
inductive TxControl
  | existingTx (txId : String)
  | newTx (beginTx : TransactionSettings) (commitTx : Bool)
deriving DecidableEq

/-- `AUTO_TX = {beginTx: {serializableReadWrite: {}}, commitTx: true}`. -/
def AUTO_TX : TxControl := .newTx .serializableReadWrite true

/-- The `query` argument: a YQL string or a `PrepareQueryResult` handle. -/
inductive QueryInput
  | text (yql : String)
  | prepared (queryId : String)
deriving DecidableEq

/-- The `query` field of the request: `{yqlText}` for a string argument,
`{id}` for a prepared handle. -/
inductive QuerySpec
  | yqlText (s : String)
  | id (queryId : String)
deriving DecidableEq

/-- `IQueryParams`, kept opaque as an association list. -/
def QueryParams : Type := List (String × String)

structure ExecuteQueryRequest where
  sessionId : String
  txControl : TxControl
  parameters : QueryParams
  query : QuerySpec

/-- The request `executeQuery` sends.  A JS call that omits `txControl`
passes `undefined`, modelled as `none`, which the default parameter turns
into `AUTO_TX`. -/
def executeQueryRequest (sessionId : String) (query : QueryInput)
    (params : QueryParams) (txControlArg : Option TxControl) : ExecuteQueryRequest :=
  let txControl := txControlArg.getD AUTO_TX
  let queryToExecute : QuerySpec :=
    match query with
    | .text q => .yqlText q
    | .prepared qid => .id qid
  { sessionId := sessionId, txControl := txControl,
    parameters := params, query := queryToExecute }

/-! ### IAM auth service (class `IamAuthService`, credentials module)

State: the cached `token` (initially `''`) and `tokenTimestamp`
(initially `null`).  Time is in milliseconds UTC. -/

structure IamState where
  token : String
  tokenTimestamp : Option Nat
deriving DecidableEq

/-- `jwtExpirationTimeout = 3600 * 1000`. -/
def jwtExpirationTimeout : Nat := 3600 * 1000

/-- `tokenExpirationTimeout = 120 * 1000`. -/
def tokenExpirationTimeout : Nat := 120 * 1000

/-- `tokenRequestTimeout = 10 * 1000`. -/
def tokenRequestTimeout : Nat := 10 * 1000

/-- The `expired` getter: `!this.tokenTimestamp ||
DateTime.utc().diff(this.tokenTimestamp).valueOf() > this.tokenExpirationTimeout`.
With `now ≥ ts` the diff is `now - ts`; a negative diff compares below the
threshold exactly as the truncated `Nat` subtraction does. -/
def iamExpired (st : IamState) (now : Nat) : Bool :=
  match st.tokenTimestamp with
  | none => true
  | some ts => decide (now - ts > tokenExpirationTimeout)

/-- The two metadata headers `makeCredentialsMetadata` sets. -/
structure Metadata where
  authTicket : String
  database : String
deriving DecidableEq

def makeCredentialsMetadata (token dbName : String) : Metadata :=
  { authTicket := token, database := dbName }

/-- `IIAmCredentials`. -/
structure IamCredentials where
  serviceAccountId : String
  accessKeyId : String
  privateKey : String
  iamEndpoint : String
deriving DecidableEq

/-- The JWT claims `getJwtRequest` signs. -/
structure JwtPayload where
  iss : String
  aud : String
  iat : Nat
  exp : Nat
deriving DecidableEq

/-- The signing options `getJwtRequest` passes to `jwt.sign`. -/
structure JwtOptions where
  algorithm : String
  keyid : String
deriving DecidableEq

/-- `Math.round(ms / 1000)` on a non-negative millisecond count
(`DateTime.toSeconds` yields fractional seconds). -/
def roundToSeconds (ms : Nat) : Nat := (ms + 500) / 1000

/-- `getJwtRequest()`: payload `{iss, aud, iat, exp}` and options
`{algorithm: "PS256", keyid}`.  The `aud` claim is the string literal written
in the source.  `now` is the current UTC time in milliseconds. -/
def getJwtRequest (creds : IamCredentials) (now : Nat) : JwtPayload × JwtOptions :=
  ({ iss := creds.serviceAccountId,
     aud := "https://iam.api.cloud.yandex.net/iam/v1/tokens",
     iat := roundToSeconds now,
     exp := roundToSeconds (now + jwtExpirationTimeout) },
   { algorithm := "PS256", keyid := creds.accessKeyId })

/-- `sendTokenRequest()`: issues `IamTokenService.create({jwt})` wrapped in
`withTimeout(_, tokenRequestTimeout)`.  Modelled as the signed JWT request
paired with the timeout applied to the call. -/
def sendTokenRequest (creds : IamCredentials) (now : Nat) : (JwtPayload × JwtOptions) × Nat :=
  (getJwtRequest creds now, tokenRequestTimeout)

/-- `getAuthMetadata()`: if the cached token is expired, run `updateToken`
(one `sendTokenRequest` RPC; on a response with an `iamToken` cache it and
stamp the time, otherwise throw `'Received empty token from IAM!'` leaving the
cache untouched); then return the credentials metadata for the cached token.
`respToken` is the `iamToken` field of the IAM response.  Result: number of
IAM RPCs issued, the resulting cache state, and the outcome. -/
def iamGetAuthMetadata (st : IamState) (dbName : String) (now : Nat)
    (respToken : Option String) : Nat × IamState × Except String Metadata :=
  if iamExpired st now then
    match respToken with
    | some t =>
      let st' : IamState := { token := t, tokenTimestamp := some now }
      (1, st', .ok (makeCredentialsMetadata st'.token dbName))
    | none => (1, st, .error "Received empty token from IAM!")
  else
    (0, st, .ok (makeCredentialsMetadata st.token dbName))

/-! #### Interleaving of two concurrent `getAuthMetadata` calls

`getAuthMetadata` suspends inside `updateToken` at
`await this.sendTokenRequest()`, after the RPC is issued and before the cache
is written.  Each caller therefore executes two atomic segments: first the
expiry check (issuing an RPC when expired), then — if it refreshed — the
cache write when its response arrives. -/

inductive CallerPhase
  | start
  | waitingToken
  | done
deriving DecidableEq

/-- Advance one caller by one atomic segment of `getAuthMetadata`.
Returns the caller's new phase, the new shared cache, and the number of IAM
RPCs this segment issues. -/
def advanceCaller (ph : CallerPhase) (cache : IamState) (now : Nat)
    (respToken : String) : CallerPhase × IamState × Nat :=
  match ph with
  | .start =>
    if iamExpired cache now then (.waitingToken, cache, 1)
    else (.done, cache, 0)
  | .waitingToken => (.done, { token := respToken, tokenTimestamp := some now }, 0)
  | .done => (.done, cache, 0)

structure TwoCallers where
  cache : IamState
  phaseA : CallerPhase
  phaseB : CallerPhase
  rpcCount : Nat
deriving DecidableEq

/-- Run a schedule over two concurrent callers; `true` schedules caller A. -/
def runTwoCallers (sched : List Bool) (c : TwoCallers) (now : Nat)
    (respToken : String) : TwoCallers :=
  match sched with
  | [] => c
  | who :: rest =>
    let next :=
      if who then
        let (ph, cache, n) := advanceCaller c.phaseA c.cache now respToken
        { c with phaseA := ph, cache := cache, rpcCount := c.rpcCount + n }
      else
        let (ph, cache, n) := advanceCaller c.phaseB c.cache now respToken
        { c with phaseB := ph, cache := cache, rpcCount := c.rpcCount + n }
    runTwoCallers rest next now respToken

/-- Both callers start with the service's initial cache
(`token = ''`, `tokenTimestamp = null`). -/
def twoCallersInit : TwoCallers :=
  { cache := { token := "", tokenTimestamp := none },
    phaseA := .start, phaseB := .start, rpcCount := 0 }

/-! ### Session pool (class `SessionPool`, src/driver.ts)

Sessions are held in a `Set<Session>`; the model keeps them as a list in
insertion order, identified by their current position.  Waiters are the
pool's FIFO `waiters` array; each waiter is identified by a number drawn from
`nextWaiterId`.  `waiterTimer` holds the armed `setTimeout` timers as
`(waiter, timeout)` pairs; `waiterOutcome` records, newest first, how each
waiter's promise was settled.  `newSessionsRequested` and
`sessionsBeingDeleted` are the pool's two JS-number counters. -/

/-- How a waiter's promise got settled. -/
inductive WaiterOutcome
  | handedSession (i : Nat)
  | failedTimeout (msg : String)
deriving DecidableEq

structure PoolState where
  sessions : List SessionState
  newSessionsRequested : Int
  sessionsBeingDeleted : Int
  waiters : List Nat
  waiterTimer : List (Nat × Nat)
  waiterOutcome : List (Nat × WaiterOutcome)
  nextWaiterId : Nat
  keepAliveArmed : Bool
  /-- model bookkeeping: fire-and-forget `createSession()` calls from
  `prepopulateSessions()` whose sessions have not landed in the set yet;
  these are never counted in `newSessionsRequested`. -/
  prepopPending : Nat
  /-- model bookkeeping: `createSession()` calls started by the acquire path
  whose sessions have not landed in the set yet (counted in
  `newSessionsRequested`). -/
  createsInFlight : Nat
  /-- model bookkeeping: pending acquire-path `.then` continuations whose
  session has already been pruned from the set; each still holds the session
  object and will decrement `newSessionsRequested` when it runs. -/
  orphanThens : Nat
  minLimit : Nat
  maxLimit : Nat
deriving DecidableEq

/-- Pool state right after the constructor returns: the session set is empty
and `prepopulateSessions()` has fired `minLimit` fire-and-forget
`createSession()` calls, each suspended at its first `await` and none counted
in `newSessionsRequested`.  The keepalive interval from `initListeners` is
armed. -/
def initPool (minLimit maxLimit : Nat) : PoolState :=
  { sessions := [],
    newSessionsRequested := 0,
    sessionsBeingDeleted := 0,
    waiters := [],
    waiterTimer := [],
    waiterOutcome := [],
    nextWaiterId := 0,
    keepAliveArmed := true,
    prepopPending := minLimit,
    createsInFlight := 0,
    orphanThens := 0,
    minLimit := minLimit,
    maxLimit := maxLimit }

/-- Apply `f` to the session at position `i` (no-op when out of range). -/
def setAt (l : List SessionState) (i : Nat) (f : SessionState → SessionState) :
    List SessionState :=
  match l[i]? with
  | some s => l.set i (f s)
  | none => l

/-- The scan `for (const session of this.sessions) if (session.isFree()) ...`:
position of the first free session in iteration order. -/
def findFree : List SessionState → Option Nat
  | [] => none
  | s :: rest => if s.isFree then some 0 else (findFree rest).map (· + 1)

/-- The capacity check of `acquire`:
`this.sessions.size + this.newSessionsRequested - this.sessionsBeingDeleted <= this.maxLimit`. -/
def capacityGuard (st : PoolState) : Bool :=
  decide ((st.sessions.length : Int) + st.newSessionsRequested
    - st.sessionsBeingDeleted ≤ (st.maxLimit : Int))

/-- What the synchronous part of `acquire(timeout)` did. -/
inductive AcquireOutcome
  | acquiredExisting (i : Nat)
  | creationStarted
  | waiterEnqueued (w : Nat)
deriving DecidableEq

/-- The timeout rejection message:
`` `No session became available within timeout of ${timeout} ms` ``. -/
def timeoutMsg (timeout : Nat) : String :=
  "No session became available within timeout of " ++ toString timeout ++ " ms"

/-- The synchronous part of `SessionPool.acquire(timeout)`: scan for a free
session and acquire it; else, under the capacity guard, increment
`newSessionsRequested` and start `createSession()`; else push a waiter,
arming a timer when `timeout` is truthy. -/
def acquireSync (st : PoolState) (timeout : Nat) : AcquireOutcome × PoolState :=
  match findFree st.sessions with
  | some i => (.acquiredExisting i, { st with sessions := setAt st.sessions i .acquireCall })
  | none =>
    if capacityGuard st then
      (.creationStarted,
       { st with
          newSessionsRequested := st.newSessionsRequested + 1,
          createsInFlight := st.createsInFlight + 1 })
    else
      (.waiterEnqueued st.nextWaiterId,
       { st with
          waiters := st.waiters ++ [st.nextWaiterId],
          waiterTimer :=
            if timeout ≠ 0 then (st.nextWaiterId, timeout) :: st.waiterTimer
            else st.waiterTimer,
          nextWaiterId := st.nextWaiterId + 1 })

/-- Landing of a fire-and-forget `createSession()` from
`prepopulateSessions()`: the tail of `createSession` runs
`this.sessions.add(session)` and the fresh session (free, not deleted) joins
the set; nothing touches `newSessionsRequested`. -/
def prepopCompletePool (st : PoolState) : PoolState :=
  { st with
      sessions := st.sessions ++ [newSessionState],
      prepopPending := st.prepopPending - 1 }

/-- Landing of a `createSession()` started by the acquire path: the tail of
`createSession` adds the fresh session — still free — to the set; the
`.then` continuation of `acquire` (counter decrement and `session.acquire()`)
is a separate, later microtask, recorded by `thenPending`. -/
def createLandPool (st : PoolState) : PoolState :=
  { st with
      sessions := st.sessions
        ++ [{ beingDeleted := false, free := true, deletePending := false,
              thenPending := true }],
      createsInFlight := st.createsInFlight - 1 }

/-- The `.then` continuation of the acquire creation path running for the
session at position `i`: `this.newSessionsRequested--` and
`session.acquire()` (sets `free = false`); the pending-continuation mark is
cleared. -/
def createThenPool (st : PoolState) (i : Nat) : PoolState :=
  { st with
      sessions := setAt st.sessions i (fun s => { s with free := false, thenPending := false }),
      newSessionsRequested := st.newSessionsRequested - 1 }

/-- The `.then` continuation of the acquire creation path running after its
session was already pruned from the set: the closure still holds the session
object, so it decrements `newSessionsRequested` and acquires a session that
is no longer pooled. -/
def orphanThenPool (st : PoolState) : PoolState :=
  { st with
      newSessionsRequested := st.newSessionsRequested - 1,
      orphanThens := st.orphanThens - 1 }

/-- `session.release()` plus the pool's `SESSION_RELEASE` listener: set the
session free; if a waiter is queued, shift the head waiter and call it, which
clears that waiter's timer and resolves its promise with `session.acquire()`. -/
def releasePool (st : PoolState) (i : Nat) : PoolState :=
  match st.waiters with
  | [] => { st with sessions := setAt st.sessions i .releaseCall }
  | w :: rest =>
    { st with
        sessions := setAt (setAt st.sessions i .releaseCall) i .acquireCall,
        waiters := rest,
        waiterTimer := st.waiterTimer.filter (fun p => p.1 ≠ w),
        waiterOutcome := (w, .handedSession i) :: st.waiterOutcome }

/-- The synchronous part of `SessionPool.deleteSession(session)`: when the
session is not yet deleted, increment `sessionsBeingDeleted` and start
`session.delete()` (which sets `beingDeleted` before awaiting the RPC);
`deletePending` records the un-awaited `.then` continuation. -/
def deleteStartPool (st : PoolState) (i : Nat) : PoolState :=
  match st.sessions[i]? with
  | none => st
  | some s =>
    if s.isDeleted then st
    else
      { st with
          sessionsBeingDeleted := st.sessionsBeingDeleted + 1,
          sessions := st.sessions.set i
            { s with beingDeleted := true, deletePending := true } }

/-- The `.then` continuation of `deleteSession`: remove the session from the
set and decrement `sessionsBeingDeleted`.  If the pruned session still had a
pending acquire-path `.then` continuation, that continuation survives in the
closure and becomes orphaned. -/
def deleteCompletePool (st : PoolState) (i : Nat) : PoolState :=
  { st with
      sessions := st.sessions.eraseIdx i,
      sessionsBeingDeleted := st.sessionsBeingDeleted - 1,
      orphanThens :=
        match st.sessions[i]? with
        | some s => if s.thenPending then st.orphanThens + 1 else st.orphanThens
        | none => st.orphanThens }

/-- `this.waiters.splice(this.waiters.indexOf(waiter), 1)`: remove the first
occurrence; when absent, `indexOf` is `-1` and `splice(-1, 1)` drops the last
element. -/
def spliceIndexOf (q : List Nat) (w : Nat) : List Nat :=
  if w ∈ q then q.erase w else q.dropLast

/-- The `setTimeout` callback of a waiter: splice the waiter out of the queue
and reject its promise with the timeout message; the one-shot timer is spent. -/
def timerFirePool (st : PoolState) (w t : Nat) : PoolState :=
  { st with
      waiters := spliceIndexOf st.waiters w,
      waiterTimer := st.waiterTimer.filter (fun p => p.1 ≠ w),
      waiterOutcome := (w, .failedTimeout (timeoutMsg t)) :: st.waiterOutcome }

/-- `withSession(callback, timeout)` after the session has been acquired:
on callback success release the session and return the result; on callback
failure start `deleteSession` and rethrow the same error. -/
def withSessionRun {ε α : Type} (st : PoolState) (i : Nat) (r : Except ε α) :
    Except ε α × PoolState :=
  match r with
  | .ok v => (.ok v, releasePool st i)
  | .error e => (.error e, deleteStartPool st i)

/-- `SessionPool.destroy()` up to the point its promise resolves:
`clearInterval(this.sessionKeepAliveId)`, then `deleteSession` is called on a
snapshot of every current session.  Each `deleteSession` promise resolves at
the end of its synchronous part — the `session.delete().then(...)` chain is
not returned — so `Promise.all` resolves here, with the `.then` pruning
continuations still pending. -/
def destroySync (st : PoolState) : PoolState :=
  let st1 := { st with keepAliveArmed := false }
  (List.range st1.sessions.length).foldl (fun acc i => deleteStartPool acc i) st1

/-- One scheduling step of the pool: a synchronous block of the source run to
its next suspension point. -/
inductive PoolStep : PoolState → PoolState → Prop
  | acquireStep (st : PoolState) (timeout : Nat) :
      PoolStep st (acquireSync st timeout).2
  | prepopCompleteStep (st : PoolState) (h : 1 ≤ st.prepopPending) :
      PoolStep st (prepopCompletePool st)
  | createLandStep (st : PoolState) (h : 1 ≤ st.createsInFlight) :
      PoolStep st (createLandPool st)
  | createThenStep (st : PoolState) (i : Nat) (s : SessionState)
      (h : st.sessions[i]? = some s) (hp : s.thenPending = true) :
      PoolStep st (createThenPool st i)
  | orphanThenStep (st : PoolState) (h : 1 ≤ st.orphanThens) :
      PoolStep st (orphanThenPool st)
  | releaseStep (st : PoolState) (i : Nat) (h : i < st.sessions.length) :
      PoolStep st (releasePool st i)
  | deleteStartStep (st : PoolState) (i : Nat) :
      PoolStep st (deleteStartPool st i)
  | deleteCompleteStep (st : PoolState) (i : Nat) (s : SessionState)
      (h : st.sessions[i]? = some s) (hp : s.deletePending = true) :
      PoolStep st (deleteCompletePool st i)
  | timerFireStep (st : PoolState) (w t : Nat) (h : (w, t) ∈ st.waiterTimer) :
      PoolStep st (timerFirePool st w t)

/-- States reachable from a freshly constructed pool. -/
def Reachable (minLimit maxLimit : Nat) (st : PoolState) : Prop :=
  Relation.ReflTransGen PoolStep (initPool minLimit maxLimit) st

/-- The quantity the capacity check of `acquire` compares against `maxLimit`:
`sessions.size + newSessionsRequested - sessionsBeingDeleted`. -/
def poolBalance (st : PoolState) : Int :=
  (st.sessions.length : Int) + st.newSessionsRequested - st.sessionsBeingDeleted

/-- First settlement recorded for a waiter (outcomes are prepended). -/
def lookupOutcome (l : List (Nat × WaiterOutcome)) (w : Nat) : Option WaiterOutcome :=
  match l with
  | [] => none
  | (k, o) :: rest => if k = w then some o else lookupOutcome rest w

/-- Number of pooled sessions whose acquire-path `.then` continuation has
not run yet. -/
def thenPendingCount (l : List SessionState) : Nat :=
  l.countP (fun s => s.thenPending)

/-- Creation work the capacity check does not see: landed acquire-path
sessions whose counter decrement is still pending, orphaned decrements, and
prepopulation creations that have landed (`minLimit - prepopPending`), which
are never counted at all. -/
def creationDebt (st : PoolState) : Int :=
  (thenPendingCount st.sessions : Int) + st.orphanThens
    + ((st.minLimit : Int) - st.prepopPending)

/-- Capacity invariant: the `minLimit` / `maxLimit` fields are the
construction arguments, at most `minLimit` prepopulation creations are
outstanding, `newSessionsRequested` counts exactly the acquire-path
creations between their counter increment and their `.then` decrement, and
the balance never exceeds `maxLimit + 1 + creationDebt`. -/
def BalanceInv (minL maxL : Nat) (st : PoolState) : Prop :=
  st.minLimit = minL ∧ st.maxLimit = maxL
  ∧ st.prepopPending ≤ minL
  ∧ st.newSessionsRequested
      = (st.createsInFlight : Int) + thenPendingCount st.sessions + st.orphanThens
  ∧ poolBalance st ≤ (maxL : Int) + 1 + creationDebt st

/-- Waiter-queue invariant: queued waiter ids are distinct, queued waiters
have unsettled promises and ids below the id counter, armed timers belong to
queued waiters, and settled ids are below the id counter. -/
def WaiterInv (st : PoolState) : Prop :=
  st.waiters.Nodup
  ∧ (∀ w ∈ st.waiters, lookupOutcome st.waiterOutcome w = none ∧ w < st.nextWaiterId)
  ∧ (∀ p ∈ st.waiterTimer, p.1 ∈ st.waiters)
  ∧ (∀ p ∈ st.waiterOutcome, p.1 < st.nextWaiterId)

/-- A pool with `minLimit = maxLimit = 0` after two `acquire` calls: the
first passes the capacity check and starts a creation, the second
(timeout 100) fails the check and parks a waiter with an armed timer. -/
def waiterScenario : PoolState :=
  (acquireSync (acquireSync (initPool 0 0) 0).2 100).2

/-! ### Session lifecycle theorems -/

theorem deleteCall_beingDeleted (s : SessionState) : s.deleteCall.1.beingDeleted = true := by
  rcases s with ⟨bd, fr, dp⟩
  cases bd <;> simp [SessionState.deleteCall, SessionState.isDeleted]

theorem applySessionOp_beingDeleted (s : SessionState) (op : SessionOp) :
    (applySessionOp s op).beingDeleted = s.beingDeleted := by
  cases op <;> rfl

theorem applySessionOps_beingDeleted (s : SessionState) (ops : List SessionOp) :
    (applySessionOps s ops).beingDeleted = s.beingDeleted := by
  induction ops generalizing s with
  | nil => rfl
  | cons op rest ih =>
    show (applySessionOps (applySessionOp s op) rest).beingDeleted = s.beingDeleted
    rw [ih, applySessionOp_beingDeleted]

theorem isFree_of_deleted (s : SessionState) (h : s.beingDeleted = true) :
    s.isFree = false := by
  simp [SessionState.isFree, SessionState.isDeleted, h]

theorem findFree_spec (l : List SessionState) (i : Nat) (h : findFree l = some i) :
    ∃ s, l[i]? = some s ∧ s.isFree = true := by
  induction l generalizing i with
  | nil => simp [findFree] at h
  | cons hd rest ih =>
    by_cases hf : hd.isFree = true
    · rw [findFree, if_pos hf] at h
      obtain rfl : (0 : Nat) = i := by injection h
      exact ⟨hd, by simp, hf⟩
    · rw [findFree, if_neg hf] at h
      rcases Option.map_eq_some'.mp h with ⟨j, hj, rfl⟩
      obtain ⟨s, hs, hfree⟩ := ih j hj
      exact ⟨s, by simpa using hs, hfree⟩

/-- C4: `Session.delete()` is idempotent: when the session is already Deleted
it is a no-op issuing no `DeleteSession` RPC; otherwise it marks the session
Deleted and issues exactly one RPC; a second `delete()` leaves the state of
the first and issues no further RPC, so two calls are observationally equal
to one. -/
theorem session_delete_idempotent (s : SessionState) :
    (s.isDeleted = true → s.deleteCall = (s, 0))
    ∧ (s.isDeleted = false → s.deleteCall.2 = 1 ∧ s.deleteCall.1.beingDeleted = true)
    ∧ s.deleteCall.1.deleteCall = (s.deleteCall.1, 0) := by
  rcases s with ⟨bd, fr, dp⟩
  cases bd <;> simp [SessionState.deleteCall, SessionState.isDeleted]

theorem session_delete_idempotent_witness :
    newSessionState.deleteCall.2 = 1 ∧ newSessionState.deleteCall.1.beingDeleted = true :=
  (session_delete_idempotent newSessionState).2.1 (by decide)

/-- C10: once `delete()` has been invoked, `isFree()` returns `false` after
any sequence of further `acquire()` / `release()` calls, and the free-session
scan of `SessionPool.acquire` only ever selects a session with
`isFree() = true`, hence one whose deletion has not started. -/
theorem delete_dominates_free (s : SessionState) (ops : List SessionOp) :
    (applySessionOps s.deleteCall.1 ops).isFree = false
    ∧ (∀ l i, findFree l = some i →
        ∃ s', l[i]? = some s' ∧ s'.isFree = true ∧ s'.isDeleted = false) := by
  constructor
  · apply isFree_of_deleted
    rw [applySessionOps_beingDeleted, deleteCall_beingDeleted]
  · intro l i h
    obtain ⟨s', hs, hfree⟩ := findFree_spec l i h
    refine ⟨s', hs, hfree, ?_⟩
    rcases s' with ⟨bd, fr, dp⟩
    cases bd
    · rfl
    · simp [SessionState.isFree, SessionState.isDeleted] at hfree

theorem delete_dominates_free_witness :
    (applySessionOps newSessionState.deleteCall.1
      [SessionOp.releaseOp, SessionOp.acquireOp, SessionOp.releaseOp]).isFree = false
    ∧ ∃ s', [newSessionState][0]? = some s' ∧ s'.isFree = true ∧ s'.isDeleted = false :=
  ⟨(delete_dominates_free newSessionState
      [SessionOp.releaseOp, SessionOp.acquireOp, SessionOp.releaseOp]).1,
   (delete_dominates_free newSessionState []).2 [newSessionState] 0 (by decide)⟩

/-! ### `executeQuery` default transaction control -/

/-- C5: `executeQuery` without an explicit `txControl` argument sends the
request with `AUTO_TX = {begin: serializableReadWrite, commit: true}`; an
explicit control, existing or new, is sent unchanged. -/
theorem executeQuery_default_txControl (sessionId : String) (query : QueryInput)
    (params : QueryParams) :
    (executeQueryRequest sessionId query params none).txControl
        = TxControl.newTx TransactionSettings.serializableReadWrite true
    ∧ (executeQueryRequest sessionId query params none).txControl = AUTO_TX
    ∧ (∀ c, (executeQueryRequest sessionId query params (some c)).txControl = c)
    ∧ (∀ c, (executeQueryRequest sessionId query params (some c)).sessionId = sessionId) :=
  ⟨rfl, rfl, fun _ => rfl, fun _ => rfl⟩

/-! ### IAM auth theorems -/

/-- C6: `getAuthMetadata` performs a token exchange iff the cached token is
expired (no timestamp yet, or `now - issuedAt > tokenExpirationTimeout`); a
response without an `iamToken` fails with the error and leaves the cache
unchanged; a successful call returns metadata carrying the resulting cached
token. -/
theorem iam_refresh_iff_expired (st : IamState) (db : String) (now : Nat)
    (respToken : Option String) :
    ((iamGetAuthMetadata st db now respToken).1 = 1 ↔ iamExpired st now = true)
    ∧ (iamExpired st now = true → respToken = none →
        (iamGetAuthMetadata st db now respToken).2.1 = st
        ∧ (iamGetAuthMetadata st db now respToken).2.2
            = Except.error "Received empty token from IAM!")
    ∧ (∀ m, (iamGetAuthMetadata st db now respToken).2.2 = Except.ok m →
        m = makeCredentialsMetadata (iamGetAuthMetadata st db now respToken).2.1.token db)
    ∧ (iamExpired st now = false →
        (iamGetAuthMetadata st db now respToken).1 = 0
        ∧ (iamGetAuthMetadata st db now respToken).2.1 = st) := by
  by_cases h : iamExpired st now = true
  · cases respToken with
    | none =>
      have hval : iamGetAuthMetadata st db now none
          = (1, st, Except.error "Received empty token from IAM!") := by
        unfold iamGetAuthMetadata
        rw [if_pos h]
      refine ⟨?_, fun _ _ => ?_, fun m hm => ?_, fun hc => ?_⟩
      · rw [hval]; simp [h]
      · rw [hval]; exact ⟨rfl, rfl⟩
      · rw [hval] at hm; simp at hm
      · rw [h] at hc; cases hc
    | some t =>
      have hval : iamGetAuthMetadata st db now (some t)
          = (1, ⟨t, some now⟩, Except.ok (makeCredentialsMetadata t db)) := by
        unfold iamGetAuthMetadata
        rw [if_pos h]
      refine ⟨?_, fun _ hn => ?_, fun m hm => ?_, fun hc => ?_⟩
      · rw [hval]; simp [h]
      · cases hn
      · rw [hval] at hm ⊢
        dsimp only at hm ⊢
        injection hm with hm
        exact hm.symm
      · rw [h] at hc; cases hc
  · have h' : iamExpired st now = false := by
      cases hx : iamExpired st now
      · rfl
      · exact absurd hx h
    have hval : iamGetAuthMetadata st db now respToken
        = (0, st, Except.ok (makeCredentialsMetadata st.token db)) := by
      have hcond : ¬ (iamExpired st now = true) := by simp [h']
      unfold iamGetAuthMetadata
      rw [if_neg hcond]
    refine ⟨?_, fun hx _ => ?_, fun m hm => ?_, fun _ => ?_⟩
    · rw [hval]; simp [h']
    · rw [hx] at h'; cases h'
    · rw [hval] at hm ⊢
      dsimp only at hm ⊢
      injection hm with hm
      exact hm.symm
    · rw [hval]; exact ⟨rfl, rfl⟩

theorem iam_refresh_iff_expired_witness :
    (iamGetAuthMetadata { token := "", tokenTimestamp := none } "/Root/db" 0 none).2.1
        = { token := "", tokenTimestamp := none }
    ∧ (iamGetAuthMetadata { token := "", tokenTimestamp := none } "/Root/db" 0 none).2.2
        = Except.error "Received empty token from IAM!" :=
  (iam_refresh_iff_expired { token := "", tokenTimestamp := none } "/Root/db" 0 none).2.1
    (by decide) rfl

/-- C7: the code does not make token refresh single-flight: two concurrent
`getAuthMetadata` calls on an expired cache, both reaching the expiry check
before either IAM response arrives, issue one IAM RPC each — two RPCs total,
contradicting "at most one RPC is triggered". -/
theorem concurrent_getAuthMetadata_two_rpcs :
    (runTwoCallers [true, false, true, false] twoCallersInit 1000 "tok").rpcCount = 2
    ∧ ¬ (runTwoCallers [true, false, true, false] twoCallersInit 1000 "tok").rpcCount ≤ 1
    ∧ (runTwoCallers [true, false, true, false] twoCallersInit 1000 "tok").phaseA
        = CallerPhase.done
    ∧ (runTwoCallers [true, false, true, false] twoCallersInit 1000 "tok").phaseB
        = CallerPhase.done := by
  decide

/-- C8 counterexample: the `aud` claim of the signed JWT is the string
literal `https://iam.api.cloud.yandex.net/iam/v1/tokens` written in
`getJwtRequest`, not the configured `iamEndpoint` of the credentials. -/
theorem jwt_aud_ignores_configured_endpoint :
    (getJwtRequest
      { serviceAccountId := "sa", accessKeyId := "ak", privateKey := "pk",
        iamEndpoint := "iam.internal.example:4283" } 0).1.aud
      ≠ "iam.internal.example:4283" := by
  decide

/-- C8 amended: each refresh signs a JWT with algorithm `PS256`,
`kid = accessKeyId`, `iss = serviceAccountId`,
`aud = "https://iam.api.cloud.yandex.net/iam/v1/tokens"` (a fixed URL,
independent of the configured `iamEndpoint`), `iat = now`,
`exp = now + jwtExpirationTimeout` (1 hour), and exchanges it under the
10-second request timeout. -/
theorem jwt_request_fields (creds : IamCredentials) (now : Nat) :
    (getJwtRequest creds now).2.algorithm = "PS256"
    ∧ (getJwtRequest creds now).2.keyid = creds.accessKeyId
    ∧ (getJwtRequest creds now).1.iss = creds.serviceAccountId
    ∧ (getJwtRequest creds now).1.aud = "https://iam.api.cloud.yandex.net/iam/v1/tokens"
    ∧ (getJwtRequest creds now).1.iat = roundToSeconds now
    ∧ (getJwtRequest creds now).1.exp = roundToSeconds (now + jwtExpirationTimeout)
    ∧ jwtExpirationTimeout = 3600 * 1000
    ∧ (sendTokenRequest creds now).1 = getJwtRequest creds now
    ∧ (sendTokenRequest creds now).2 = 10 * 1000 :=
  ⟨rfl, rfl, rfl, rfl, rfl, rfl, rfl, rfl, rfl⟩

/-! ### Pool helper lemmas -/

theorem setAt_length (l : List SessionState) (i : Nat) (f : SessionState → SessionState) :
    (setAt l i f).length = l.length := by
  unfold setAt
  cases l[i]? <;> simp

theorem setAt_get_self (l : List SessionState) (i : Nat) (f : SessionState → SessionState)
    (s : SessionState) (h : l[i]? = some s) : (setAt l i f)[i]? = some (f s) := by
  unfold setAt
  rw [h]
  have hlt : i < l.length := (List.getElem?_eq_some.mp h).1
  rw [List.getElem?_set_self']
  simp [List.getElem?_eq_getElem hlt, (List.getElem?_eq_getElem hlt).symm.trans h]

theorem lookupOutcome_eq_none (l : List (Nat × WaiterOutcome)) (w : Nat)
    (h : ∀ p ∈ l, p.1 ≠ w) : lookupOutcome l w = none := by
  induction l with
  | nil => rfl
  | cons p rest ih =>
    rcases p with ⟨k, o⟩
    rw [lookupOutcome, if_neg (h (k, o) (List.mem_cons_self _ _))]
    exact ih fun q hq => h q (List.mem_cons_of_mem _ hq)

theorem lookupOutcome_cons_ne (k : Nat) (o : WaiterOutcome) (l : List (Nat × WaiterOutcome))
    (w : Nat) (h : k ≠ w) : lookupOutcome ((k, o) :: l) w = lookupOutcome l w := by
  rw [lookupOutcome, if_neg h]

theorem lookupOutcome_cons_self (k : Nat) (o : WaiterOutcome) (l : List (Nat × WaiterOutcome)) :
    lookupOutcome ((k, o) :: l) k = some o := by
  rw [lookupOutcome, if_pos rfl]

theorem capacityGuard_iff (st : PoolState) :
    capacityGuard st = true ↔ poolBalance st ≤ (st.maxLimit : Int) := by
  simp [capacityGuard, poolBalance]

theorem acquireSync_found (st : PoolState) (timeout i : Nat)
    (hf : findFree st.sessions = some i) :
    acquireSync st timeout
      = (.acquiredExisting i, { st with sessions := setAt st.sessions i .acquireCall }) := by
  unfold acquireSync
  rw [hf]

theorem acquireSync_create (st : PoolState) (timeout : Nat)
    (hf : findFree st.sessions = none) (hg : capacityGuard st = true) :
    acquireSync st timeout
      = (.creationStarted,
         { st with
            newSessionsRequested := st.newSessionsRequested + 1,
            createsInFlight := st.createsInFlight + 1 }) := by
  unfold acquireSync
  rw [hf, if_pos hg]

theorem acquireSync_wait (st : PoolState) (timeout : Nat)
    (hf : findFree st.sessions = none) (hg : ¬ capacityGuard st = true) :
    acquireSync st timeout
      = (.waiterEnqueued st.nextWaiterId,
         { st with
            waiters := st.waiters ++ [st.nextWaiterId],
            waiterTimer :=
              if timeout ≠ 0 then (st.nextWaiterId, timeout) :: st.waiterTimer
              else st.waiterTimer,
            nextWaiterId := st.nextWaiterId + 1 }) := by
  unfold acquireSync
  rw [hf, if_neg hg]

theorem releasePool_nil (st : PoolState) (i : Nat) (hw : st.waiters = []) :
    releasePool st i = { st with sessions := setAt st.sessions i .releaseCall } := by
  unfold releasePool
  rw [hw]

theorem releasePool_cons (st : PoolState) (i w : Nat) (rest : List Nat)
    (hw : st.waiters = w :: rest) :
    releasePool st i
      = { st with
          sessions := setAt (setAt st.sessions i .releaseCall) i .acquireCall,
          waiters := rest,
          waiterTimer := st.waiterTimer.filter (fun p => p.1 ≠ w),
          waiterOutcome := (w, .handedSession i) :: st.waiterOutcome } := by
  unfold releasePool
  rw [hw]

theorem createThenPool_eq (st : PoolState) (i : Nat) (s : SessionState)
    (hs : st.sessions[i]? = some s) :
    createThenPool st i
      = { st with
          sessions := st.sessions.set i { s with free := false, thenPending := false },
          newSessionsRequested := st.newSessionsRequested - 1 } := by
  unfold createThenPool setAt
  rw [hs]

theorem deleteCompletePool_eq (st : PoolState) (i : Nat) (s : SessionState)
    (hs : st.sessions[i]? = some s) :
    deleteCompletePool st i
      = { st with
          sessions := st.sessions.eraseIdx i,
          sessionsBeingDeleted := st.sessionsBeingDeleted - 1,
          orphanThens := if s.thenPending then st.orphanThens + 1 else st.orphanThens } := by
  unfold deleteCompletePool
  rw [hs]

theorem deleteStartPool_cases (st : PoolState) (i : Nat) :
    deleteStartPool st i = st
    ∨ ∃ s, st.sessions[i]? = some s ∧ s.isDeleted = false
        ∧ deleteStartPool st i
          = { st with
                sessionsBeingDeleted := st.sessionsBeingDeleted + 1,
                sessions := st.sessions.set i
                  { s with beingDeleted := true, deletePending := true } } := by
  unfold deleteStartPool
  cases hs : st.sessions[i]? with
  | none => exact Or.inl rfl
  | some s =>
    dsimp only
    by_cases hd : s.isDeleted = true
    · rw [if_pos hd]
      exact Or.inl rfl
    · rw [if_neg hd]
      refine Or.inr ⟨s, rfl, ?_, rfl⟩
      revert hd
      cases s.isDeleted <;> simp

theorem countP_set_add {α : Type} (p : α → Bool) (l : List α) (i : Nat) (a x : α)
    (h : l[i]? = some a) :
    (l.set i x).countP p + (if p a then 1 else 0)
      = l.countP p + (if p x then 1 else 0) := by
  induction l generalizing i with
  | nil => simp at h
  | cons hd tl ih =>
    cases i with
    | zero =>
      obtain rfl : hd = a := by simpa using h
      simp only [List.set_cons_zero, List.countP_cons]
      omega
    | succ j =>
      have hih := ih j (by simpa using h)
      simp only [List.set_cons_succ, List.countP_cons]
      omega

theorem countP_eraseIdx_add {α : Type} (p : α → Bool) (l : List α) (i : Nat) (a : α)
    (h : l[i]? = some a) :
    (l.eraseIdx i).countP p + (if p a then 1 else 0) = l.countP p := by
  induction l generalizing i with
  | nil => simp at h
  | cons hd tl ih =>
    cases i with
    | zero =>
      obtain rfl : hd = a := by simpa using h
      simp [List.countP_cons]
    | succ j =>
      have hih := ih j (by simpa using h)
      simp only [List.eraseIdx_cons_succ, List.countP_cons]
      omega

theorem thenPendingCount_append (l : List SessionState) (s : SessionState) :
    thenPendingCount (l ++ [s])
      = thenPendingCount l + (if s.thenPending then 1 else 0) := by
  unfold thenPendingCount
  rw [List.countP_append]
  simp [List.countP_cons]

theorem thenPendingCount_set (l : List SessionState) (i : Nat) (a x : SessionState)
    (h : l[i]? = some a) (hx : x.thenPending = a.thenPending) :
    thenPendingCount (l.set i x) = thenPendingCount l := by
  have h2 := countP_set_add (fun s => s.thenPending) l i a x h
  simp only [hx] at h2
  exact Nat.add_right_cancel h2

theorem thenPendingCount_setAt (l : List SessionState) (i : Nat)
    (f : SessionState → SessionState)
    (hf : ∀ s, (f s).thenPending = s.thenPending) :
    thenPendingCount (setAt l i f) = thenPendingCount l := by
  unfold setAt
  cases hs : l[i]? with
  | none => rfl
  | some s => exact thenPendingCount_set l i s (f s) hs (hf s)

/-! ### Pool invariants -/

theorem balanceInv_init (minL maxL : Nat) :
    BalanceInv minL maxL (initPool minL maxL) := by
  refine ⟨rfl, rfl, Nat.le_refl _, rfl, ?_⟩
  simp only [poolBalance, creationDebt, thenPendingCount, initPool, List.length_nil,
    List.countP_nil]
  omega

theorem balanceInv_step (minL maxL : Nat) (st st' : PoolState) (hstep : PoolStep st st')
    (hinv : BalanceInv minL maxL st) : BalanceInv minL maxL st' := by
  obtain ⟨hmin, hmax, hpre, hreq, hbal⟩ := hinv
  rw [poolBalance, creationDebt, hmin] at hbal
  cases hstep with
  | acquireStep timeout =>
    cases hf : findFree st.sessions with
    | some i =>
      have hcnt : thenPendingCount (setAt st.sessions i SessionState.acquireCall)
          = thenPendingCount st.sessions :=
        thenPendingCount_setAt st.sessions i SessionState.acquireCall fun s => rfl
      rw [acquireSync_found st timeout i hf]
      refine ⟨hmin, hmax, hpre, ?_, ?_⟩
      · dsimp only
        rw [hcnt]
        exact hreq
      · rw [poolBalance, creationDebt]
        dsimp only
        rw [setAt_length, hcnt, hmin]
        exact hbal
    | none =>
      by_cases hg : capacityGuard st = true
      · rw [acquireSync_create st timeout hf hg]
        have hle := (capacityGuard_iff st).mp hg
        rw [poolBalance, hmax] at hle
        refine ⟨hmin, hmax, hpre, ?_, ?_⟩
        · dsimp only
          omega
        · rw [poolBalance, creationDebt]
          dsimp only
          rw [hmin]
          omega
      · rw [acquireSync_wait st timeout hf hg]
        refine ⟨hmin, hmax, hpre, hreq, ?_⟩
        rw [poolBalance, creationDebt]
        dsimp only
        rw [hmin]
        exact hbal
  | prepopCompleteStep h =>
    have hcnt : thenPendingCount (st.sessions ++ [newSessionState])
        = thenPendingCount st.sessions := by
      rw [thenPendingCount_append]
      simp [newSessionState]
    refine ⟨hmin, hmax, Nat.le_trans (Nat.sub_le _ _) hpre, ?_, ?_⟩
    · dsimp only [prepopCompletePool]
      rw [hcnt]
      exact hreq
    · rw [poolBalance, creationDebt]
      dsimp only [prepopCompletePool]
      rw [hcnt, hmin, List.length_append]
      simp only [List.length_cons, List.length_nil]
      omega
  | createLandStep h =>
    have hcnt : thenPendingCount (st.sessions
          ++ [{ beingDeleted := false, free := true, deletePending := false,
                thenPending := true }])
        = thenPendingCount st.sessions + 1 := by
      rw [thenPendingCount_append]
      simp
    refine ⟨hmin, hmax, hpre, ?_, ?_⟩
    · dsimp only [createLandPool]
      rw [hcnt]
      omega
    · rw [poolBalance, creationDebt]
      dsimp only [createLandPool]
      rw [hcnt, hmin, List.length_append]
      simp only [List.length_cons, List.length_nil]
      omega
  | createThenStep i s hs hp =>
    have hcnt := countP_set_add (fun x => x.thenPending) st.sessions i s
      { s with free := false, thenPending := false } hs
    have hcnt' : thenPendingCount (st.sessions.set i
          { s with free := false, thenPending := false }) + 1
        = thenPendingCount st.sessions := by
      unfold thenPendingCount
      simpa [hp] using hcnt
    rw [createThenPool_eq st i s hs]
    refine ⟨hmin, hmax, hpre, ?_, ?_⟩
    · dsimp only
      omega
    · rw [poolBalance, creationDebt]
      dsimp only
      rw [List.length_set, hmin]
      omega
  | orphanThenStep h =>
    refine ⟨hmin, hmax, hpre, ?_, ?_⟩
    · dsimp only [orphanThenPool]
      omega
    · rw [poolBalance, creationDebt]
      dsimp only [orphanThenPool]
      rw [hmin]
      omega
  | releaseStep i h =>
    cases hw : st.waiters with
    | nil =>
      have hcnt : thenPendingCount (setAt st.sessions i SessionState.releaseCall)
          = thenPendingCount st.sessions :=
        thenPendingCount_setAt st.sessions i SessionState.releaseCall fun s => rfl
      rw [releasePool_nil st i hw]
      refine ⟨hmin, hmax, hpre, ?_, ?_⟩
      · dsimp only
        rw [hcnt]
        exact hreq
      · rw [poolBalance, creationDebt]
        dsimp only
        rw [setAt_length, hcnt, hmin]
        exact hbal
    | cons w rest =>
      have hcnt : thenPendingCount (setAt (setAt st.sessions i SessionState.releaseCall) i
            SessionState.acquireCall) = thenPendingCount st.sessions := by
        rw [thenPendingCount_setAt (setAt st.sessions i SessionState.releaseCall) i
            SessionState.acquireCall fun s => rfl,
          thenPendingCount_setAt st.sessions i SessionState.releaseCall fun s => rfl]
      rw [releasePool_cons st i w rest hw]
      refine ⟨hmin, hmax, hpre, ?_, ?_⟩
      · dsimp only
        rw [hcnt]
        exact hreq
      · rw [poolBalance, creationDebt]
        dsimp only
        rw [setAt_length, setAt_length, hcnt, hmin]
        exact hbal
  | deleteStartStep i =>
    rcases deleteStartPool_cases st i with heq | ⟨s, hs, hd, heq⟩
    · rw [heq]
      exact ⟨hmin, hmax, hpre, hreq, by rw [poolBalance, creationDebt, hmin]; exact hbal⟩
    · have hcnt : thenPendingCount (st.sessions.set i
            { s with beingDeleted := true, deletePending := true })
          = thenPendingCount st.sessions :=
        thenPendingCount_set st.sessions i s _ hs rfl
      rw [heq]
      refine ⟨hmin, hmax, hpre, ?_, ?_⟩
      · dsimp only
        rw [hcnt]
        exact hreq
      · rw [poolBalance, creationDebt]
        dsimp only
        rw [List.length_set, hcnt, hmin]
        omega
  | deleteCompleteStep i s hs hp =>
    have hlt : i < st.sessions.length := (List.getElem?_eq_some.mp hs).1
    have hlen : (st.sessions.eraseIdx i).length = st.sessions.length - 1 :=
      List.length_eraseIdx_of_lt hlt
    have hcnt := countP_eraseIdx_add (fun x => x.thenPending) st.sessions i s hs
    rw [deleteCompletePool_eq st i s hs]
    by_cases htp : s.thenPending = true
    · have hcnt' : thenPendingCount (st.sessions.eraseIdx i) + 1
          = thenPendingCount st.sessions := by
        unfold thenPendingCount
        simpa [htp] using hcnt
      rw [if_pos htp]
      refine ⟨hmin, hmax, hpre, ?_, ?_⟩
      · dsimp only
        omega
      · rw [poolBalance, creationDebt]
        dsimp only
        rw [hlen, hmin]
        omega
    · have hcnt' : thenPendingCount (st.sessions.eraseIdx i)
          = thenPendingCount st.sessions := by
        unfold thenPendingCount
        simpa [htp] using hcnt
      rw [if_neg htp]
      refine ⟨hmin, hmax, hpre, ?_, ?_⟩
      · dsimp only
        rw [hcnt']
        exact hreq
      · rw [poolBalance, creationDebt]
        dsimp only
        rw [hlen, hcnt', hmin]
        omega
  | timerFireStep w t h =>
    refine ⟨hmin, hmax, hpre, hreq, ?_⟩
    rw [poolBalance, creationDebt]
    dsimp only [timerFirePool]
    rw [hmin]
    exact hbal


theorem waiterInv_init (minL maxL : Nat) : WaiterInv (initPool minL maxL) := by
  refine ⟨List.nodup_nil, ?_, ?_, ?_⟩ <;> simp [initPool]

theorem waiterInv_step (st st' : PoolState) (hstep : PoolStep st st')
    (hinv : WaiterInv st) : WaiterInv st' := by
  obtain ⟨hnd, hout, htim, hkeys⟩ := hinv
  cases hstep with
  | acquireStep timeout =>
    cases hf : findFree st.sessions with
    | some i =>
      rw [acquireSync_found st timeout i hf]
      exact ⟨hnd, hout, htim, hkeys⟩
    | none =>
      by_cases hg : capacityGuard st = true
      · rw [acquireSync_create st timeout hf hg]
        exact ⟨hnd, hout, htim, hkeys⟩
      · rw [acquireSync_wait st timeout hf hg]
        have hfresh : st.nextWaiterId ∉ st.waiters :=
          fun hmem => absurd ((hout _ hmem).2) (lt_irrefl _)
        refine ⟨?_, ?_, ?_, ?_⟩
        · simp [List.nodup_append, hnd, hfresh]
        · intro w hw
          rcases List.mem_append.mp hw with hw | hw
          · exact ⟨(hout w hw).1, Nat.lt_succ_of_lt (hout w hw).2⟩
          · have hw' : w = st.nextWaiterId := by simpa using hw
            subst hw'
            refine ⟨lookupOutcome_eq_none _ _ fun p hp => Nat.ne_of_lt (hkeys p hp), ?_⟩
            exact Nat.lt_succ_self _
        · intro p hp
          by_cases ht : timeout ≠ 0
          · rw [if_pos ht] at hp
            rcases List.mem_cons.mp hp with hp | hp
            · subst hp
              exact List.mem_append.mpr (Or.inr (List.mem_singleton.mpr rfl))
            · exact List.mem_append.mpr (Or.inl (htim p hp))
          · rw [if_neg ht] at hp
            exact List.mem_append.mpr (Or.inl (htim p hp))
        · exact fun p hp => Nat.lt_succ_of_lt (hkeys p hp)
  | prepopCompleteStep h =>
    exact ⟨hnd, hout, htim, hkeys⟩
  | createLandStep h =>
    exact ⟨hnd, hout, htim, hkeys⟩
  | createThenStep i s hs hp =>
    exact ⟨hnd, hout, htim, hkeys⟩
  | orphanThenStep h =>
    exact ⟨hnd, hout, htim, hkeys⟩
  | releaseStep i h =>
    cases hw : st.waiters with
    | nil =>
      rw [releasePool_nil st i hw]
      exact ⟨hnd, hout, htim, hkeys⟩
    | cons w rest =>
      rw [releasePool_cons st i w rest hw]
      rw [hw] at hnd
      have hwmem : w ∈ st.waiters := by rw [hw]; exact List.mem_cons_self _ _
      have hwrest : w ∉ rest := (List.nodup_cons.mp hnd).1
      refine ⟨(List.nodup_cons.mp hnd).2, ?_, ?_, ?_⟩
      · intro w' hw'
        have hw'mem : w' ∈ st.waiters := by rw [hw]; exact List.mem_cons_of_mem _ hw'
        have hne : w ≠ w' := fun he => hwrest (he ▸ hw')
        rw [lookupOutcome_cons_ne _ _ _ _ hne]
        exact hout w' hw'mem
      · intro p hp
        have hp' := List.mem_filter.mp hp
        have hne : p.1 ≠ w := by simpa using hp'.2
        have : p.1 ∈ st.waiters := htim p hp'.1
        rw [hw] at this
        rcases List.mem_cons.mp this with he | he
        · exact absurd he hne
        · exact he
      · intro p hp
        rcases List.mem_cons.mp hp with he | he
        · subst he
          exact (hout w hwmem).2
        · exact hkeys p he
  | deleteStartStep i =>
    rcases deleteStartPool_cases st i with heq | ⟨s, hs, hd, heq⟩ <;> rw [heq]
    · exact ⟨hnd, hout, htim, hkeys⟩
    · exact ⟨hnd, hout, htim, hkeys⟩
  | deleteCompleteStep i s hs hp =>
    exact ⟨hnd, hout, htim, hkeys⟩
  | timerFireStep w t h =>
    have hwmem : w ∈ st.waiters := htim (w, t) h
    have herase : spliceIndexOf st.waiters w = st.waiters.erase w := by
      rw [spliceIndexOf, if_pos hwmem]
    unfold timerFirePool
    rw [herase]
    refine ⟨hnd.erase w, ?_, ?_, ?_⟩
    · intro w' hw'
      obtain ⟨hne, hw'mem⟩ := (List.Nodup.mem_erase_iff hnd).mp hw'
      rw [lookupOutcome_cons_ne _ _ _ _ (Ne.symm hne)]
      exact hout w' hw'mem
    · intro p hp
      have hp' := List.mem_filter.mp hp
      have hne : p.1 ≠ w := by simpa using hp'.2
      exact (List.mem_erase_of_ne hne).mpr (htim p hp'.1)
    · intro p hp
      rcases List.mem_cons.mp hp with he | he
      · subst he
        exact (hout w hwmem).2
      · exact hkeys p he

theorem reachable_balanceInv (minL maxL : Nat) (st : PoolState)
    (h : Reachable minL maxL st) : BalanceInv minL maxL st := by
  unfold Reachable at h
  induction h with
  | refl => exact balanceInv_init minL maxL
  | tail hsteps hstep ih => exact balanceInv_step minL maxL _ _ hstep ih

theorem reachable_waiterInv (minL maxL : Nat) (st : PoolState)
    (h : Reachable minL maxL st) : WaiterInv st := by
  unfold Reachable at h
  induction h with
  | refl => exact waiterInv_init minL maxL
  | tail hsteps hstep ih => exact waiterInv_step _ _ hstep ih

/-! ### Claim theorems about the pool -/

/-- C1 amended: in the acquire decision a new session is created only when
`|sessions| + newSessionsRequested − sessionsBeingDeleted ≤ maxLimit` holds
(otherwise, with no free session, the acquirer is enqueued as a waiter), but
`|pool.sessions| ≤ maxLimit` is not an invariant: the check admits one extra
creation (`≤` instead of `<`), does not yet see acquire-path creations whose
counter decrement is a pending microtask, and never counts the `minLimit`
prepopulation creations.  For every reachable state the balance is bounded
by `maxLimit + 1 + creationDebt`, and whenever no creation, decrement or
deletion is outstanding the session set is bounded by
`maxLimit + minLimit + 1`. -/
theorem pool_capacity_invariant (minL maxL : Nat) (st : PoolState)
    (h : Reachable minL maxL st) :
    poolBalance st ≤ (st.maxLimit : Int) + 1 + creationDebt st
    ∧ (st.newSessionsRequested = 0 → st.prepopPending = 0 →
        st.sessionsBeingDeleted = 0 →
        (st.sessions.length : Int) ≤ (st.maxLimit : Int) + st.minLimit + 1)
    ∧ (∀ t, (acquireSync st t).1 = AcquireOutcome.creationStarted →
        poolBalance st ≤ (st.maxLimit : Int))
    ∧ (∀ t, findFree st.sessions = none → capacityGuard st = false →
        (acquireSync st t).1 = AcquireOutcome.waiterEnqueued st.nextWaiterId) := by
  obtain ⟨hmin, hmax, hpre, hreq, hbal⟩ := reachable_balanceInv minL maxL st h
  refine ⟨by rw [hmax]; exact hbal, ?_, ?_, ?_⟩
  · intro hr0 hp0 hd0
    rw [poolBalance, creationDebt, hmin] at hbal
    rw [hr0, hp0, hd0] at hbal
    rw [hr0] at hreq
    rw [hmax, hmin]
    omega
  · intro t hc
    cases hf : findFree st.sessions with
    | some i =>
      rw [acquireSync_found st t i hf] at hc
      cases hc
    | none =>
      by_cases hg : capacityGuard st = true
      · exact (capacityGuard_iff st).mp hg
      · rw [acquireSync_wait st t hf hg] at hc
        cases hc
  · intro t hf hg
    rw [acquireSync_wait st t hf (by simp [hg])]

theorem pool_capacity_invariant_witness :
    ((prepopCompletePool (initPool 1 5)).sessions.length : Int)
      ≤ ((prepopCompletePool (initPool 1 5)).maxLimit : Int)
        + (prepopCompletePool (initPool 1 5)).minLimit + 1 := by
  have hreach : Reachable 1 5 (prepopCompletePool (initPool 1 5)) := by
    unfold Reachable
    exact Relation.ReflTransGen.tail Relation.ReflTransGen.refl
      (PoolStep.prepopCompleteStep (initPool 1 5) (by decide))
  exact (pool_capacity_invariant 1 5 (prepopCompletePool (initPool 1 5)) hreach).2.1
    (by decide) (by decide) (by decide)

/-- C1 counterexample: with `minLimit = maxLimit = 1`, the prepopulated
creation lands, two `acquire` calls run (the first takes the free session,
the second passes the `≤ maxLimit` capacity check and starts a creation),
and the started creation lands: the session set holds 2 > maxLimit sessions,
so `|pool.sessions| ≤ maxLimit` is not an invariant. -/
theorem pool_size_exceeds_maxLimit :
    ∃ st : PoolState, Reachable 1 1 st ∧ st.maxLimit < st.sessions.length := by
  refine ⟨createLandPool
      (acquireSync (acquireSync (prepopCompletePool (initPool 1 1)) 0).2 0).2,
    ?_, by decide⟩
  unfold Reachable
  exact Relation.ReflTransGen.tail
    (Relation.ReflTransGen.tail
      (Relation.ReflTransGen.tail
        (Relation.ReflTransGen.tail Relation.ReflTransGen.refl
          (PoolStep.prepopCompleteStep (initPool 1 1) (by decide)))
        (PoolStep.acquireStep _ 0))
      (PoolStep.acquireStep _ 0))
    (PoolStep.createLandStep _ (by decide))

/-- C2: in every reachable pool state, a waiter whose armed timer fires is
removed from the FIFO queue, its promise is rejected with
`No session became available within timeout of T ms`, and no timer for it
remains; a settled waiter promise is preserved by every further step (a
waiter is resolved at most once); and a released session is handed to the
head waiter, whose promise resolves with exactly the released session in
acquired state and whose timer is cleared. -/
theorem waiter_timeout_and_single_resolution (minL maxL : Nat) (st : PoolState)
    (hreach : Reachable minL maxL st) :
    (∀ w t, (w, t) ∈ st.waiterTimer →
        w ∉ (timerFirePool st w t).waiters
        ∧ lookupOutcome (timerFirePool st w t).waiterOutcome w
            = some (WaiterOutcome.failedTimeout (timeoutMsg t))
        ∧ (∀ t', (w, t') ∉ (timerFirePool st w t).waiterTimer))
    ∧ (∀ st' w o, PoolStep st st' →
        lookupOutcome st.waiterOutcome w = some o →
        lookupOutcome st'.waiterOutcome w = some o)
    ∧ (∀ i w rest, st.waiters = w :: rest → i < st.sessions.length →
        (releasePool st i).waiters = rest
        ∧ lookupOutcome (releasePool st i).waiterOutcome w
            = some (WaiterOutcome.handedSession i)
        ∧ (∀ t', (w, t') ∉ (releasePool st i).waiterTimer)
        ∧ ((releasePool st i).sessions[i]?).map (fun s => s.free) = some false) := by
  obtain ⟨hnd, hout, htim, hkeys⟩ := reachable_waiterInv minL maxL st hreach
  refine ⟨?_, ?_, ?_⟩
  · intro w t hmem
    have hwmem : w ∈ st.waiters := htim (w, t) hmem
    have herase : spliceIndexOf st.waiters w = st.waiters.erase w := by
      rw [spliceIndexOf, if_pos hwmem]
    unfold timerFirePool
    rw [herase]
    refine ⟨?_, lookupOutcome_cons_self _ _ _, ?_⟩
    · dsimp only
      intro hmem'
      exact ((List.Nodup.mem_erase_iff hnd).mp hmem').1 rfl
    · intro t' hmem'
      have hp' := List.mem_filter.mp hmem'
      have hne : (w, t').1 ≠ w := by simpa using hp'.2
      exact hne rfl
  · intro st' w o hstep hsome
    cases hstep with
    | acquireStep timeout =>
      cases hf : findFree st.sessions with
      | some i =>
        rw [acquireSync_found st timeout i hf]
        exact hsome
      | none =>
        by_cases hg : capacityGuard st = true
        · rw [acquireSync_create st timeout hf hg]
          exact hsome
        · rw [acquireSync_wait st timeout hf hg]
          exact hsome
    | prepopCompleteStep h => exact hsome
    | createLandStep h => exact hsome
    | createThenStep i s hs hp =>
      rw [createThenPool_eq st i s hs]
      exact hsome
    | orphanThenStep h => exact hsome
    | releaseStep i h =>
      cases hw : st.waiters with
      | nil =>
        rw [releasePool_nil st i hw]
        exact hsome
      | cons w0 rest =>
        rw [releasePool_cons st i w0 rest hw]
        have hw0 : w0 ∈ st.waiters := by
          rw [hw]
          exact List.mem_cons_self _ _
        have hne : w0 ≠ w := by
          intro he
          subst he
          rw [(hout w0 hw0).1] at hsome
          cases hsome
        dsimp only
        rw [lookupOutcome_cons_ne _ _ _ _ hne]
        exact hsome
    | deleteStartStep i =>
      rcases deleteStartPool_cases st i with heq | ⟨s, hs, hd, heq⟩ <;> rw [heq] <;>
        exact hsome
    | deleteCompleteStep i s hs hp => exact hsome
    | timerFireStep w0 t h =>
      have hw0 : w0 ∈ st.waiters := htim (w0, t) h
      have hne : w0 ≠ w := by
        intro he
        subst he
        rw [(hout w0 hw0).1] at hsome
        cases hsome
      unfold timerFirePool
      dsimp only
      rw [lookupOutcome_cons_ne _ _ _ _ hne]
      exact hsome
  · intro i w rest hw hlen
    rw [releasePool_cons st i w rest hw]
    refine ⟨rfl, lookupOutcome_cons_self _ _ _, ?_, ?_⟩
    · intro t' hmem'
      have hp' := List.mem_filter.mp hmem'
      have hne : (w, t').1 ≠ w := by simpa using hp'.2
      exact hne rfl
    · obtain ⟨s, hs⟩ : ∃ s, st.sessions[i]? = some s :=
        ⟨_, List.getElem?_eq_getElem hlen⟩
      have h1 : (setAt st.sessions i SessionState.releaseCall)[i]?
          = some s.releaseCall := setAt_get_self _ _ _ _ hs
      have h2 : (setAt (setAt st.sessions i SessionState.releaseCall) i
            SessionState.acquireCall)[i]? = some s.releaseCall.acquireCall :=
        setAt_get_self _ _ _ _ h1
      dsimp only
      rw [h2]
      rfl

theorem waiter_timeout_witness :
    0 ∉ (timerFirePool waiterScenario 0 100).waiters
    ∧ lookupOutcome (timerFirePool waiterScenario 0 100).waiterOutcome 0
        = some (WaiterOutcome.failedTimeout (timeoutMsg 100)) := by
  have hreach : Reachable 0 0 waiterScenario := by
    unfold Reachable waiterScenario
    exact Relation.ReflTransGen.tail
      (Relation.ReflTransGen.tail Relation.ReflTransGen.refl
        (PoolStep.acquireStep (initPool 0 0) 0))
      (PoolStep.acquireStep _ 100)
  have h := (waiter_timeout_and_single_resolution 0 0 waiterScenario hreach).1 0 100
    (by decide)
  exact ⟨h.1, h.2.1⟩

/-- C3: `withSession` returns the callback's result and releases the session
(with no waiter queued, the session ends up Free in the pool) when the
callback succeeds; when the callback throws, the same error is rethrown and
the session goes through `deleteSession` — marked deleted, its `free` flag
untouched — instead of being released. -/
theorem withSession_release_or_delete {ε α : Type} (st : PoolState) (i : Nat)
    (r : Except ε α) (s : SessionState)
    (hs : st.sessions[i]? = some s) (hnd : s.beingDeleted = false) :
    (∀ v, r = Except.ok v →
        withSessionRun st i r = (Except.ok v, releasePool st i)
        ∧ (st.waiters = [] →
            ((releasePool st i).sessions[i]?).map (fun x => x.isFree) = some true))
    ∧ (∀ e, r = Except.error e →
        withSessionRun st i r = (Except.error e, deleteStartPool st i)
        ∧ ((deleteStartPool st i).sessions[i]?).map (fun x => x.beingDeleted) = some true
        ∧ ((deleteStartPool st i).sessions[i]?).map (fun x => x.free) = some s.free) := by
  constructor
  · intro v hv
    subst hv
    refine ⟨rfl, ?_⟩
    intro hw
    rw [releasePool_nil st i hw]
    dsimp only
    rw [setAt_get_self _ _ _ _ hs]
    simp [SessionState.isFree, SessionState.releaseCall, SessionState.isDeleted, hnd]
  · intro e he
    subst he
    refine ⟨rfl, ?_, ?_⟩ <;>
      · unfold deleteStartPool
        rw [hs]
        dsimp only
        rw [if_neg (by simp [SessionState.isDeleted, hnd])]
        have hlt : i < st.sessions.length := (List.getElem?_eq_some.mp hs).1
        rw [List.getElem?_set_self']
        simp [List.getElem?_eq_getElem hlt]

theorem withSession_witness :
    withSessionRun (prepopCompletePool (initPool 1 1)) 0 (Except.ok 7 : Except String Nat)
        = (Except.ok 7, releasePool (prepopCompletePool (initPool 1 1)) 0)
    ∧ withSessionRun (prepopCompletePool (initPool 1 1)) 0
          (Except.error "boom" : Except String Nat)
        = (Except.error "boom", deleteStartPool (prepopCompletePool (initPool 1 1)) 0) := by
  have h1 := withSession_release_or_delete (prepopCompletePool (initPool 1 1)) 0
    (Except.ok 7 : Except String Nat) newSessionState (by decide) rfl
  have h2 := withSession_release_or_delete (prepopCompletePool (initPool 1 1)) 0
    (Except.error "boom" : Except String Nat) newSessionState (by decide) rfl
  exact ⟨(h1.1 7 rfl).1, (h2.2 "boom" rfl).1⟩

/-! ### Pool destruction -/

/-- C9: at the moment `destroy()`'s promise resolves the keepalive interval
is cancelled, but for a pool holding one session the session is still in the
pool's set with its `DeleteSession` RPC pending and `sessionsBeingDeleted`
still 1: `deleteSession` never awaits the `session.delete().then(...)` chain,
so `Promise.all` in `destroy` resolves before any deletion completes. -/
theorem destroy_resolves_before_deletion_completes :
    (destroySync (prepopCompletePool (initPool 1 20))).keepAliveArmed = false
    ∧ (destroySync (prepopCompletePool (initPool 1 20))).sessions.length = 1
    ∧ (destroySync (prepopCompletePool (initPool 1 20))).sessionsBeingDeleted = 1
    ∧ ((destroySync (prepopCompletePool (initPool 1 20))).sessions[0]?).map
        (fun s => s.deletePending) = some true := by
  decide

end YdbSdk
